import Mathlib

/-!
Verification development for the `yap` peer-to-peer chat core.

The Go sources are embedded shallowly: strings are modelled as `List Char`
(written `Str` below), machine integers as `Nat`, Go maps as association
lists with overwrite-on-insert, and `time.Now()` / `crypto/rand` results are
passed in explicitly as parameters.  Every definition is translated from the
corresponding Go function; doc comments name the source symbol.  The
`net/netip` textual address layer is modelled for the IPv4 forms
(`a.b.c.d:port`); strings outside that grammar take the parser-failure
branches, exactly as unparsable addresses do in the source.
-/

set_option autoImplicit false

/-- Model of Go strings: a list of characters. -/
abbrev Str := List Char

/-- Whitespace predicate of `strings.TrimSpace` (the Latin-1 subset of
`unicode.IsSpace`, which is what the addresses handled here can contain):
tab, newline, vertical tab, form feed, carriage return, space, NEL, NBSP. -/
def isSpc (c : Char) : Bool :=
  c.toNat = 32 || c.toNat = 9 || c.toNat = 10 || c.toNat = 11 || c.toNat = 12 ||
  c.toNat = 13 || c.toNat = 133 || c.toNat = 160

/-- Model of `strings.TrimSpace`: drop whitespace from both ends. -/
def trimL (s : Str) : Str :=
  ((s.dropWhile isSpc).reverse.dropWhile isSpc).reverse

/-- Decimal digit character for `d < 10` (as produced by `strconv`). -/
def digChar : Nat → Char
  | 0 => '0' | 1 => '1' | 2 => '2' | 3 => '3' | 4 => '4'
  | 5 => '5' | 6 => '6' | 7 => '7' | 8 => '8' | _ => '9'

/-- Digit test on a character, `'0' ≤ c ≤ '9'`. -/
def isDig (c : Char) : Bool := 48 ≤ c.toNat && c.toNat ≤ 57

/-- Numeric value of a digit character. -/
def digVal (c : Char) : Nat := c.toNat - 48

/-- Little-endian decimal digits, structurally recursive on a fuel bound so
closed terms reduce in the kernel. -/
def toDigitsRevFuel : Nat → Nat → List Char
  | 0, n => [digChar n]
  | fuel + 1, n =>
    if n < 10 then [digChar n] else digChar (n % 10) :: toDigitsRevFuel fuel (n / 10)

/-- Little-endian decimal digits of a natural number. -/
def toDigitsRev (n : Nat) : List Char := toDigitsRevFuel n n

/-- Decimal rendering of a natural number (model of `strconv.Itoa` for `Nat`). -/
def natToStr (n : Nat) : Str := (toDigitsRev n).reverse

/-- Value of a digit string, most significant first. -/
def digitsVal (s : Str) : Nat := s.foldl (fun a c => a * 10 + digVal c) 0

/-- Split a string into its maximal digit head and the remainder
(model of the field scanning loops in `net/netip` parsing). -/
def spanDigits : Str → Str × Str
  | [] => ([], [])
  | c :: cs =>
    if isDig c then (c :: (spanDigits cs).1, (spanDigits cs).2)
    else ([], c :: cs)

/-- No leading zero: a multi-digit decimal field may not begin with `'0'`
(`net/netip` rejects such fields). -/
def noLeadZero : Str → Bool
  | [] => true
  | c :: rest => !(c = '0' && !rest.isEmpty)

/-- A decimal field: non-empty, all digits, no leading zero, value at most
`max`.  Used for IPv4 octets (`max = 255`) and ports (`max = 65535`). -/
def decFieldOK (s : Str) (max : Nat) : Bool :=
  !s.isEmpty && s.all isDig && noLeadZero s && digitsVal s ≤ max

/-- An IPv4 address, the address family used throughout the sources. -/
structure Ip where
  a : Nat
  b : Nat
  c : Nat
  d : Nat
  deriving DecidableEq, Repr

/-- Model of `netip.AddrPort`. -/
structure AddrPort where
  ip : Ip
  port : Nat
  deriving DecidableEq, Repr

/-- Model of `netip.Addr.IsUnspecified` for IPv4: the address `0.0.0.0`. -/
def Ip.isUnspecified (ip : Ip) : Bool := ip = ⟨0, 0, 0, 0⟩

/-- Model of `netip.Addr.IsLoopback` for IPv4: the block `127.0.0.0/8`. -/
def Ip.isLoopback (ip : Ip) : Bool := ip.a = 127

/-- Canonical text of an IPv4 address (`netip.Addr.String`). -/
def renderIp (ip : Ip) : Str :=
  natToStr ip.a ++ '.' :: natToStr ip.b ++ '.' :: natToStr ip.c ++ '.' :: natToStr ip.d

/-- Canonical text of an address-port (`netip.AddrPort.String` for IPv4). -/
def renderAP (ap : AddrPort) : Str :=
  renderIp ap.ip ++ ':' :: natToStr ap.port

/-- Read one IPv4 octet from the head of the string. -/
def readOctet (s : Str) : Option (Nat × Str) :=
  if decFieldOK (spanDigits s).1 255 then
    some (digitsVal (spanDigits s).1, (spanDigits s).2)
  else none

/-- Expect a literal character at the head of the string. -/
def expectChar (c : Char) : Str → Option Str
  | x :: rest => if x = c then some rest else none
  | [] => none

/-- Read a whole decimal port (the rest of the string). -/
def readPortAll (s : Str) : Option Nat :=
  if decFieldOK s 65535 then some (digitsVal s) else none

/-- Model of `netip.ParseAddrPort` restricted to the IPv4 grammar
`a.b.c.d:port`. -/
def parseAddrPortL (s : Str) : Option AddrPort := do
  let (a, r1) ← readOctet s
  let r1b ← expectChar '.' r1
  let (b, r2) ← readOctet r1b
  let r2b ← expectChar '.' r2
  let (c, r3) ← readOctet r2b
  let r3b ← expectChar '.' r3
  let (d, r4) ← readOctet r3b
  let r4b ← expectChar ':' r4
  let p ← readPortAll r4b
  pure ⟨⟨a, b, c, d⟩, p⟩

/-- Model of `netip.ParseAddr` restricted to the IPv4 grammar `a.b.c.d`. -/
def parseIpL (s : Str) : Option Ip := do
  let (a, r1) ← readOctet s
  let r1b ← expectChar '.' r1
  let (b, r2) ← readOctet r1b
  let r2b ← expectChar '.' r2
  let (c, r3) ← readOctet r2b
  let r3b ← expectChar '.' r3
  let (d, r4) ← readOctet r3b
  if r4.isEmpty then pure ⟨a, b, c, d⟩ else none

/-- In-range address-ports, the image of the parser. -/
def APOK (ap : AddrPort) : Prop :=
  ap.ip.a ≤ 255 ∧ ap.ip.b ≤ 255 ∧ ap.ip.c ≤ 255 ∧ ap.ip.d ≤ 255 ∧ ap.port ≤ 65535

instance (ap : AddrPort) : Decidable (APOK ap) := by
  unfold APOK; infer_instance

/-- Inner block of `normalizeAddr`: when the advertised address is
unspecified (`0.0.0.0`) and the fallback parses to a specified address,
substitute the fallback's address while keeping the advertised port. -/
def substituteUnspec (ap : AddrPort) (fb : Str) : AddrPort :=
  if ap.ip.isUnspecified && !fb.isEmpty then
    match parseAddrPortL fb with
    | some fp => if !fp.ip.isUnspecified then ⟨fp.ip, ap.port⟩ else ap
    | none => ap
  else ap

/-- Fallback blocks of `normalizeAddr` (the code after the advertised-address
parse fails): try the fallback as an address-port, the advertised string as a
bare host, and finally return the trimmed input unnormalized. -/
def normalizeTail (adv fb : Str) : Str × Bool :=
  if !fb.isEmpty then
    match parseAddrPortL fb with
    | some fp =>
      if !adv.isEmpty then
        match parseIpL adv with
        | some host => (renderAP ⟨host, fp.port⟩, true)
        | none => (renderAP fp, true)
      else (renderAP fp, true)
    | none =>
      if !adv.isEmpty then (adv, false)
      else (fb, false)
  else if !adv.isEmpty then (adv, false)
  else ([], false)

/-- Model of `normalizeAddr` (identical in
`internal/membership/manager.go` and `internal/chat/membership.go`). -/
def normalizeAddrL (advertised fallback : Str) : Str × Bool :=
  if (trimL advertised).isEmpty then
    normalizeTail (trimL advertised) (trimL fallback)
  else
    match parseAddrPortL (trimL advertised) with
    | some ap => (renderAP (substituteUnspec ap (trimL fallback)), true)
    | none => normalizeTail (trimL advertised) (trimL fallback)

/-- The one-argument normalization used throughout the sources:
`normalizeAddr(s, s)`, keeping the trimmed input when normalization fails
(callers replace the failed result with `strings.TrimSpace(s)`, which is
exactly what `normalizeAddr` returns in that case). -/
def normalizeL (s : Str) : Str := (normalizeAddrL s s).1

/-- Local-identity fields shared by `membership.Manager` and the chat
`session` (`localAddr`, `localIP`, `localPort`); `localIP = none` models the
invalid zero `netip.Addr`. -/
structure LocState where
  localAddr : Str
  localIP : Option Ip
  localPort : Nat
  deriving DecidableEq, Repr

/-- Address argument as computed at the top of `IsLocal`/`isLocal`:
normalize with the input as its own fallback, fall back to trimming. -/
def addrForLocal (raw : Str) : Str :=
  match normalizeAddrL raw raw with
  | (a, true) => a
  | (_, false) => trimL raw

/-- Body of `Manager.IsLocal` / `session.isLocal` after the address has been
normalized. -/
def isLocalCoreA (loc : LocState) (addr : Str) : Bool :=
  if addr.isEmpty || loc.localAddr.isEmpty then false
  else if addr = loc.localAddr then true
  else
    match parseAddrPortL addr with
    | none => false
    | some ap =>
      if loc.localPort ≠ 0 && ap.port ≠ loc.localPort then false
      else
        match loc.localIP with
        | none => true
        | some lip =>
          if lip.isUnspecified then true
          else if ap.ip = lip then true
          else if lip.isLoopback && ap.ip.isLoopback then true
          else false

/-- Model of `Manager.IsLocal` (`internal/membership/manager.go`) and
`session.isLocal` (`internal/chat/membership.go`), which are identical. -/
def isLocalCore (loc : LocState) (raw : Str) : Bool :=
  isLocalCoreA loc (addrForLocal raw)

/-- Modelled from the spec: "`addr` is local when, after normalization, it
equals `localAddr`; OR its parsed port equals the local port AND (the local
IP is unspecified, OR its parsed IP equals the local IP, OR both are
loopback)." -/
def isLocalSpecA (loc : LocState) (addr : Str) : Bool :=
  (addr = loc.localAddr) ||
  match parseAddrPortL addr with
  | none => false
  | some ap =>
    (ap.port = loc.localPort) &&
    ((match loc.localIP with | some ip => ip.isUnspecified | none => false) ||
     (loc.localIP = some ap.ip) ||
     ((match loc.localIP with | some ip => ip.isLoopback | none => false) &&
      ap.ip.isLoopback))

/-- Spec-side locality predicate applied after normalization. -/
def isLocalSpec (loc : LocState) (raw : Str) : Bool :=
  isLocalSpecA loc (normalizeL raw)

/-- Well-formed local identity: the canonical local address parses, and the
cached IP and (non-zero) port are its components.  This is the state
`setLocalAddr` establishes for every bound socket address. -/
def LocWF (loc : LocState) : Prop :=
  ∃ ap, parseAddrPortL loc.localAddr = some ap ∧ loc.localIP = some ap.ip ∧
    loc.localPort = ap.port ∧ ap.port ≠ 0

/-- Local endpoint `127.0.0.1:4000` as a character list. -/
def addrLocal14 : Str :=
  ['1', '2', '7', '.', '0', '.', '0', '.', '1', ':', '4', '0', '0', '0']

/-- Peer endpoint `127.0.0.1:4001` as a character list. -/
def addrPeer14 : Str :=
  ['1', '2', '7', '.', '0', '.', '0', '.', '1', ':', '4', '0', '0', '1']

/-- A concrete well-formed local identity for `127.0.0.1:4000`. -/
def locStateW : LocState := ⟨addrLocal14, some ⟨127, 0, 0, 1⟩, 4000⟩

/-- Member status (`membership.Status`): zero value is `Pending`. -/
inductive MStatus where
  | pending
  | active
  deriving DecidableEq, Repr

/-- Model of `membership.Member`. -/
structure MMember where
  addr : Str
  name : Str
  status : MStatus
  lastSeen : Nat
  deriving DecidableEq, Repr

/-- Association-list lookup modelling Go map read `t[k]`. -/
def tblGet {β : Type} : List (Str × β) → Str → Option β
  | [], _ => none
  | (k, v) :: rest, key => if k = key then some v else tblGet rest key

/-- Association-list write modelling Go map write `t[k] = v`. -/
def tblSet {β : Type} : List (Str × β) → Str → β → List (Str × β)
  | [], key, v => [(key, v)]
  | (k, w) :: rest, key, v =>
    if k = key then (k, v) :: rest else (k, w) :: tblSet rest key v

/-- State of a `membership.Manager`. -/
structure MState where
  localAddr : Str
  localIP : Option Ip
  localPort : Nat
  localName : Str
  members : List (Str × MMember)
  deriving DecidableEq, Repr

/-- Locality fields of a manager state. -/
def MState.loc (st : MState) : LocState :=
  ⟨st.localAddr, st.localIP, st.localPort⟩

/-- Model of `Manager.IsLocal`. -/
def MState.isLocal (st : MState) (raw : Str) : Bool :=
  isLocalCore st.loc raw

/-- Model of `Manager.MarkActive` (`internal/membership/manager.go`):
normalize, refuse local addresses, insert or update the member, report
whether the status changed to `Active`; `now` stands for `time.Now()`. -/
def markActiveM (st : MState) (addr name : Str) (now : Nat) : MState × Bool :=
  match normalizeAddrL addr addr with
  | (_, false) => (st, false)
  | (a, true) =>
    if st.isLocal a then (st, false)
    else
      let mem := match tblGet st.members a with
        | some m => m
        | none => ⟨a, [], .pending, 0⟩
      let changed := mem.status ≠ MStatus.active
      let mem2 : MMember :=
        { mem with
          status := .active,
          name := if ¬name.isEmpty then name else mem.name,
          lastSeen := now }
      ({st with members := tblSet st.members a mem2}, changed)

/-- Model of `Manager.MarkFailed` (`internal/membership/manager.go`):
normalize, refuse local addresses, demote a known member to pending
(reporting `true` whether or not it was already pending), or report
`false` for an unknown address. -/
def markFailedM (st : MState) (addr : Str) (now : Nat) : MState × Bool :=
  match normalizeAddrL addr addr with
  | (_, false) => (st, false)
  | (a, true) =>
    if st.isLocal a then (st, false)
    else
      match tblGet st.members a with
      | none => (st, false)
      | some mem =>
        let mem2 : MMember := { mem with status := .pending, lastSeen := now }
        ({st with members := tblSet st.members a mem2}, true)

/-- A non-local member already recorded as Active with name `b`. -/
def memPeerActive : MMember := ⟨addrPeer14, ['b'], .active, 5⟩

/-- Manager state for `127.0.0.1:4000` knowing the active peer
`127.0.0.1:4001`. -/
def mgrStateC7 : MState :=
  ⟨addrLocal14, some ⟨127, 0, 0, 1⟩, 4000, ['m'], [(addrPeer14, memPeerActive)]⟩

/-- Model of the chat session's `member` record
(`internal/chat/membership.go`), including the cached UDP endpoint. -/
structure SMember where
  addr : Str
  name : Str
  status : MStatus
  lastSeen : Nat
  endpoint : Option AddrPort
  deriving DecidableEq, Repr

/-- Membership-relevant state of a chat `session`. -/
structure SState where
  cfgName : Str
  localAddr : Str
  localIP : Option Ip
  localPort : Nat
  members : List (Str × SMember)
  deriving DecidableEq, Repr

/-- Model of `session.isLocal`. -/
def SState.isLocalS (st : SState) (raw : Str) : Bool :=
  isLocalCore ⟨st.localAddr, st.localIP, st.localPort⟩ raw

/-- Association-list delete modelling Go `delete(t, k)`. -/
def tblDel {β : Type} : List (Str × β) → Str → List (Str × β)
  | [], _ => []
  | (k, v) :: rest, key => if k = key then rest else (k, v) :: tblDel rest key

/-- Advertised peer record in join/peers payloads (`memberInfo`). -/
structure MemberInfo where
  addr : Str
  name : Str
  deriving DecidableEq, Repr

/-- Parsed join payload (`joinPayload`); the session receives it as JSON and
`processJoinPayload` first unmarshals it, modelled by `Option JoinPayload`. -/
structure JoinPayload where
  member : MemberInfo
  peers : List MemberInfo
  deriving DecidableEq, Repr

/-- Model of `session.setLocalAddrLocked`: canonicalize, record IP/port,
and refresh the local member entry (skipped for an empty canonical form). -/
def setLocalAddrLocked (st : SState) (addr : Str) (now : Nat) : SState :=
  let canon := addrForLocal addr
  let parsed := parseAddrPortL canon
  let st1 : SState :=
    { st with
      localAddr := canon,
      localIP := parsed.map (fun ap => ap.ip),
      localPort := match parsed with | some ap => ap.port | none => 0 }
  if canon.isEmpty then st1
  else
    let rec0 := match tblGet st1.members canon with
      | some r => r
      | none => ⟨canon, [], .pending, 0, none⟩
    let rec1 : SMember :=
      { rec0 with
        name := st.cfgName,
        status := .active,
        lastSeen := now,
        endpoint := match parsed with | some ap => some ap | none => rec0.endpoint }
    { st1 with members := tblSet st1.members canon rec1 }

/-- Model of `session.resetMembership`: fresh table, reseeded local entry. -/
def resetMembershipS (st : SState) (localAddr : Str) (now : Nat) : SState :=
  setLocalAddrLocked { st with members := [] } localAddr now

/-- Model of `session.addPendingMember`. -/
def addPendingMemberS (st : SState) (raw : Str) (now : Nat) : SState × Bool :=
  if st.isLocalS raw then (st, false)
  else
    let addr := addrForLocal raw
    match tblGet st.members addr with
    | none =>
      ({ st with members := tblSet st.members addr ⟨addr, [], .pending, now, none⟩ },
        true)
    | some rec0 =>
      if rec0.status ≠ MStatus.pending then
        let rec1 : SMember := { rec0 with status := .pending, lastSeen := now }
        ({ st with members := tblSet st.members addr rec1 }, true)
      else (st, false)

/-- Model of `session.markMemberActive`. -/
def markMemberActiveS (st : SState) (raw name : Str) (now : Nat) : SState × Bool :=
  if st.isLocalS raw then (st, false)
  else
    let addr := addrForLocal raw
    let rec0 := match tblGet st.members addr with
      | some r => r
      | none => ⟨addr, [], .pending, 0, none⟩
    let rec1 : SMember := { rec0 with addr := addr }
    let rec2 : SMember := match parseAddrPortL addr with
      | some ap => { rec1 with endpoint := some ap }
      | none => rec1
    let changed := rec2.status ≠ MStatus.active
    let rec3 : SMember :=
      { rec2 with
        status := .active,
        name := if ¬name.isEmpty then name else rec2.name,
        lastSeen := now }
    ({ st with members := tblSet st.members addr rec3 }, changed)

/-- Model of `session.markMemberFailed` (clears the cached endpoint). -/
def markMemberFailedS (st : SState) (raw : Str) (now : Nat) : SState × Bool :=
  if st.isLocalS raw then (st, false)
  else
    let addr := addrForLocal raw
    match tblGet st.members addr with
    | none => (st, false)
    | some rec0 =>
      let rec1 : SMember := { rec0 with status := .pending, lastSeen := now, endpoint := none }
      ({ st with members := tblSet st.members addr rec1 }, true)

/-- Model of `session.removeMember`. -/
def removeMemberS (st : SState) (raw : Str) : SState × Bool :=
  if st.isLocalS raw then (st, false)
  else
    let addr := addrForLocal raw
    match tblGet st.members addr with
    | none => (st, false)
    | some _ => ({ st with members := tblDel st.members addr }, true)

/-- Model of `session.hasMember`. -/
def hasMemberS (st : SState) (raw : Str) : Bool :=
  if st.isLocalS raw then false
  else (tblGet st.members (addrForLocal raw)).isSome

/-- Lexicographic comparison used to model `sort.Slice` on address strings. -/
def lexLt : Str → Str → Bool
  | [], [] => false
  | [], _ :: _ => true
  | _ :: _, [] => false
  | a :: as, b :: bs =>
    if a.toNat < b.toNat then true
    else if a.toNat = b.toNat then lexLt as bs
    else false

/-- Insertion step for sorting advertised peers by address. -/
def insertSorted (x : MemberInfo) : List MemberInfo → List MemberInfo
  | [] => [x]
  | y :: ys => if lexLt x.addr y.addr then x :: y :: ys else y :: insertSorted x ys

/-- Sort of advertised peer lists by address. -/
def sortInfos (l : List MemberInfo) : List MemberInfo :=
  l.foldr insertSorted []

/-- Model of `session.activeInfos`: active members other than the excluded
and the local address, as advertised records, sorted by address. -/
def activeInfosS (st : SState) (exclude : Str) : List MemberInfo :=
  let ex := trimL exclude
  sortInfos (st.members.foldr
    (fun p acc =>
      if p.2.status = MStatus.active ∧ p.2.addr ≠ ex ∧ p.2.addr ≠ st.localAddr then
        ⟨p.2.addr, p.2.name⟩ :: acc
      else acc)
    [])

/-- Loop body of `session.collectUnknown` with the remote's canonical form
precomputed. -/
def collectUnknownGo (st : SState) (infos : List MemberInfo) (remote : Str)
    (rcanon : Str) (rok : Bool) (now : Nat) : SState × List Str :=
  match infos with
  | [] => (st, [])
  | info :: rest =>
    match normalizeAddrL info.addr remote with
    | (_, false) => collectUnknownGo st rest remote rcanon rok now
    | (addr, true) =>
      if (rok && addr = rcanon) || st.isLocalS addr then
        collectUnknownGo st rest remote rcanon rok now
      else
        let r1 := markMemberActiveS st addr info.name now
        if r1.2 then
          let r2 := collectUnknownGo r1.1 rest remote rcanon rok now
          (r2.1, addr :: r2.2)
        else if ¬hasMemberS r1.1 addr then
          let r3 := addPendingMemberS r1.1 addr now
          let r4 := collectUnknownGo r3.1 rest remote rcanon rok now
          if r3.2 then (r4.1, addr :: r4.2) else (r4.1, r4.2)
        else
          collectUnknownGo r1.1 rest remote rcanon rok now

/-- Model of `session.collectUnknown`. -/
def collectUnknownS (st : SState) (infos : List MemberInfo) (remote : Str)
    (now : Nat) : SState × List Str :=
  match normalizeAddrL remote remote with
  | (rc, rok) => collectUnknownGo st infos remote rc rok now

/-- Advertised address of a join, normalized with the observed source as
fallback; on failure the trimmed source address (`processJoinPayload`). -/
def joinAddr (memberAddr remoteAddr : Str) : Str :=
  match normalizeAddrL memberAddr remoteAddr with
  | (a, true) => a
  | (_, false) => trimL remoteAddr

/-- Model of `session.processJoinPayload` on a pre-parsed payload (`none`
models a JSON unmarshal failure, which returns without touching the table). -/
def processJoinPayloadS (st : SState) (payload : Option JoinPayload)
    (remoteAddr remoteName : Str) (now : Nat) :
    SState × Option (List MemberInfo) × List Str :=
  match payload with
  | none => (st, none, [])
  | some pl =>
    let addr := joinAddr pl.member.addr remoteAddr
    let name := if ¬pl.member.name.isEmpty then pl.member.name else remoteName
    let st1 := if ¬addr.isEmpty && !st.isLocalS addr then
        (markMemberActiveS st addr name now).1
      else st
    let r := collectUnknownS st1 pl.peers addr now
    (r.1, some (activeInfosS r.1 addr), r.2)

/-- Model of `session.processPeersPayload` on a pre-parsed payload. -/
def processPeersPayloadS (st : SState) (payload : Option (List MemberInfo))
    (remoteAddr : Str) (now : Nat) : SState × List Str :=
  match payload with
  | none => (st, [])
  | some peers => collectUnknownS st peers remoteAddr now

/-- The membership operations C4 quantifies over. -/
inductive MemOp where
  | addPending (raw : Str) (now : Nat)
  | markActive (raw name : Str) (now : Nat)
  | markFailed (raw : Str) (now : Nat)
  | removeMem (raw : Str)
  | processJoin (payload : Option JoinPayload) (remoteAddr remoteName : Str) (now : Nat)
  | processPeers (payload : Option (List MemberInfo)) (remoteAddr : Str) (now : Nat)
  | resetTable (localAddr : Str) (now : Nat)
  deriving DecidableEq, Repr

/-- Effect of one membership operation on the session state. -/
def applyOp (st : SState) : MemOp → SState
  | .addPending raw now => (addPendingMemberS st raw now).1
  | .markActive raw name now => (markMemberActiveS st raw name now).1
  | .markFailed raw now => (markMemberFailedS st raw now).1
  | .removeMem raw => (removeMemberS st raw).1
  | .processJoin p ra rn now => (processJoinPayloadS st p ra rn now).1
  | .processPeers p ra now => (processPeersPayloadS st p ra now).1
  | .resetTable la now => resetMembershipS st la now

/-- Operation arguments that are non-empty after trimming (what every caller
in the sources passes). -/
def opTrimOK : MemOp → Bool
  | .addPending raw _ => ¬(trimL raw).isEmpty
  | .markActive raw _ _ => ¬(trimL raw).isEmpty
  | _ => true

/-- The table invariant of C4: no entry is keyed by an empty address. -/
def KeysNonEmpty (st : SState) : Prop := ∀ p ∈ st.members, p.1 ≠ []

instance (st : SState) : Decidable (KeysNonEmpty st) := by
  unfold KeysNonEmpty
  infer_instance

/-- Session state as `newSession` builds it: empty table reseeded from the
bound socket address. -/
def sessionInit (cfgName localAddr : Str) (now : Nat) : SState :=
  resetMembershipS ⟨cfgName, [], none, 0, []⟩ localAddr now

/-- C4 counterexample operations: a whitespace-only address hint. -/
def c4Ops : List MemOp := [.addPending [' '] 1]

/-- Concrete operation sequence exercising the amended C4 invariant. -/
def c4OpsW : List MemOp :=
  [.markActive addrPeer14 ['b'] 1, .markFailed addrPeer14 2,
   .processPeers (some [⟨addrPeer14, ['b']⟩]) addrLocal14 3,
   .resetTable addrLocal14 4]

/-- Envelope kinds (`msgType`). -/
inductive MsgType where
  | chat
  | join
  | leave
  | error
  | system
  | prompt
  | peers
  deriving DecidableEq, Repr

/-- Model of the wire `Message` envelope; `sender` is the Go `From` field,
`kind` the Go `Type` field (JSON tag `kind`). -/
structure Message where
  id : Str
  sender : Str
  body : Str
  kind : MsgType
  timestamp : Int
  cipher : Str
  nonce : Str
  deriving DecidableEq, Repr

/-- Base64 alphabet of `encoding/base64.StdEncoding`. -/
def b64Char (n : Nat) : Char :=
  (['A', 'B', 'C', 'D', 'E', 'F', 'G', 'H', 'I', 'J', 'K', 'L', 'M',
    'N', 'O', 'P', 'Q', 'R', 'S', 'T', 'U', 'V', 'W', 'X', 'Y', 'Z',
    'a', 'b', 'c', 'd', 'e', 'f', 'g', 'h', 'i', 'j', 'k', 'l', 'm',
    'n', 'o', 'p', 'q', 'r', 's', 't', 'u', 'v', 'w', 'x', 'y', 'z',
    '0', '1', '2', '3', '4', '5', '6', '7', '8', '9', '+', '/'].getD n 'A')

/-- Model of `base64.StdEncoding.EncodeToString` on byte lists. -/
def b64encode : List Nat → Str
  | [] => []
  | [a] => [b64Char (a / 4 % 64), b64Char (a % 4 * 16), '=', '=']
  | [a, b] =>
    [b64Char (a / 4 % 64), b64Char (a % 4 * 16 + b / 16 % 16), b64Char (b % 16 * 4), '=']
  | a :: b :: c :: rest =>
    b64Char (a / 4 % 64) :: b64Char (a % 4 * 16 + b / 16 % 16) ::
    b64Char (b % 16 * 4 + c / 64 % 4) :: b64Char (c % 64) :: b64encode rest

/-- Value of one base64 alphabet character
(`base64.StdEncoding` decode map). -/
def b64CharVal (c : Char) : Option Nat :=
  if 65 ≤ c.toNat ∧ c.toNat ≤ 90 then some (c.toNat - 65)
  else if 97 ≤ c.toNat ∧ c.toNat ≤ 122 then some (c.toNat - 97 + 26)
  else if 48 ≤ c.toNat ∧ c.toNat ≤ 57 then some (c.toNat - 48 + 52)
  else if c = '+' then some 62
  else if c = '/' then some 63
  else none

/-- Model of `base64.StdEncoding.DecodeString`: four-character groups,
padding only in the final group. -/
def b64decode : Str → Option (List Nat)
  | [] => some []
  | c1 :: c2 :: c3 :: c4 :: rest =>
    match b64CharVal c1, b64CharVal c2 with
    | some v1, some v2 =>
      if c3 = '=' ∧ c4 = '=' ∧ rest = [] then some [v1 * 4 + v2 / 16]
      else
        match b64CharVal c3 with
        | some v3 =>
          if c4 = '=' ∧ rest = [] then
            some [v1 * 4 + v2 / 16, v2 % 16 * 16 + v3 / 4]
          else
            match b64CharVal c4 with
            | some v4 =>
              (b64decode rest).map
                (fun tail => (v1 * 4 + v2 / 16) :: (v2 % 16 * 16 + v3 / 4) ::
                  (v3 % 4 * 64 + v4) :: tail)
            | none => none
        | none => none
    | _, _ => none
  | _ => none

/-- Abstract AEAD instance standing for the `cipher.AEAD` the Go standard
library returns from `cipher.NewGCM(aes.NewCipher(sha256(secret)))`:
`sealFn` is `Seal(nil, nonce, plain, nil)`, `openFn` is
`Open(nil, nonce, ciphertext, nil)` (`none` models the authentication
error). -/
structure GCM where
  nonceSize : Nat
  sealFn : List Nat → List Nat → List Nat
  openFn : List Nat → List Nat → Option (List Nat)

/-- The AEAD correctness contract documented for `cipher.AEAD`: opening what
was sealed under the same nonce returns the plaintext. -/
def GCMSound (g : GCM) : Prop :=
  ∀ nonce plain, g.openFn nonce (g.sealFn nonce plain) = some plain

/-- Model of `aesCipher` / `AESCipher`: a wrapper around the AEAD. -/
structure AESCipher where
  gcm : GCM

/-- Model of `newAESCipher`: reject an empty secret; otherwise wrap the
AES-GCM instance derived from the secret (the derivation itself is standard
library code, abstracted by the `g` argument). -/
def newAESCipherM (secret : Str) (g : GCM) : Option AESCipher :=
  if secret.isEmpty then none else some ⟨g⟩

/-- Model of `aesCipher.Encrypt`: the fresh random nonce drawn from
`crypto/rand` is the `nonce` argument. -/
def AESCipher.encrypt (c : AESCipher) (nonce plain : List Nat) :
    List Nat × List Nat :=
  (nonce, c.gcm.sealFn nonce plain)

/-- Model of `aesCipher.Decrypt`. -/
def AESCipher.decrypt (c : AESCipher) (nonce ciphertext : List Nat) :
    Option (List Nat) :=
  c.gcm.openFn nonce ciphertext

/-- A trivially sound AEAD used to instantiate the abstract contract. -/
def gcmId : GCM := ⟨12, fun _ p => p, fun _ ct => some ct⟩

/-- Go `[]byte(s)` for the payload strings handled here (one byte per
code point). -/
def strBytes (s : Str) : List Nat := s.map Char.toNat

/-- Go `string(b)` for decrypted payload bytes. -/
def bytesStr (b : List Nat) : Str := b.map Char.ofNat

/-- Model of `transport.prepare` (`internal/chat` and the `chat` package are
identical): assemble the envelope, and when a cipher is configured encrypt
the body into `cipher`/`nonce` and clear `body`.  `freshId` stands for
`newMessageID()`, `ts` for `time.Now().Unix()`, `nonce` for the random
nonce drawn inside `Encrypt`.  (The JSON marshalling and the seen-set store
that follow do not change the envelope.) -/
def prepare (cipherSt : Option AESCipher) (name : Str) (kind : MsgType)
    (body : Str) (freshId : Str) (ts : Int) (nonce : List Nat) : Message :=
  let msg : Message := ⟨freshId, name, body, kind, ts, [], []⟩
  match cipherSt with
  | none => msg
  | some c =>
    let r := c.encrypt nonce (strBytes body)
    { msg with cipher := b64encode r.2, nonce := b64encode r.1, body := [] }

/-- The transmitted-envelope invariant of C2: exactly one of
(body set, cipher and nonce empty) and (body empty, cipher and nonce set). -/
def envelopeXor (m : Message) : Prop :=
  (m.body ≠ [] ∧ m.cipher = [] ∧ m.nonce = []) ∨
  (m.body = [] ∧ m.cipher ≠ [] ∧ m.nonce ≠ [])

instance (m : Message) : Decidable (envelopeXor m) := by
  unfold envelopeXor
  infer_instance

/-- An AEAD whose sealing appends one tag byte (never empty). -/
def gcmTag : GCM := ⟨12, fun _ p => p ++ [0], fun _ ct => some (ct.dropLast)⟩

/-- Reject reason `"encryption required"`. -/
def encryptionRequiredS : Str :=
  ['e', 'n', 'c', 'r', 'y', 'p', 't', 'i', 'o', 'n', ' ',
   'r', 'e', 'q', 'u', 'i', 'r', 'e', 'd']

/-- Reject reason `"invalid nonce"`. -/
def invalidNonceS : Str :=
  ['i', 'n', 'v', 'a', 'l', 'i', 'd', ' ', 'n', 'o', 'n', 'c', 'e']

/-- Reject reason `"invalid ciphertext"`. -/
def invalidCiphertextS : Str :=
  ['i', 'n', 'v', 'a', 'l', 'i', 'd', ' ',
   'c', 'i', 'p', 'h', 'e', 'r', 't', 'e', 'x', 't']

/-- Reject reason `"authentication failed"`. -/
def authFailedS : Str :=
  ['a', 'u', 't', 'h', 'e', 'n', 't', 'i', 'c', 'a', 't', 'i', 'o', 'n',
   ' ', 'f', 'a', 'i', 'l', 'e', 'd']

/-- Result of `transport.verifyAndDecrypt`: the (possibly decrypted)
envelope, the authenticated flag, the reject reason, and whether an error
was returned (`errFlag` models `err != nil`; every error path carries a
non-empty reason). -/
structure VDResult where
  msg : Message
  auth : Bool
  reason : Str
  errFlag : Bool
  deriving DecidableEq, Repr

/-- Model of `transport.verifyAndDecrypt`: `error` envelopes bypass all
checks; otherwise the cipher state and the envelope's `cipher` field must
agree, and in an encrypted session the fields are base64-decoded and
AEAD-opened, replacing the body on success. -/
def verifyAndDecrypt (cipherSt : Option AESCipher) (msg : Message) : VDResult :=
  if msg.kind = MsgType.error then ⟨msg, false, [], false⟩
  else
    let encrypted := ¬msg.cipher.isEmpty
    match cipherSt with
    | none =>
      if encrypted then ⟨msg, false, encryptionRequiredS, true⟩
      else ⟨msg, true, [], false⟩
    | some c =>
      if ¬encrypted then ⟨msg, false, encryptionRequiredS, true⟩
      else
        match b64decode msg.nonce with
        | none => ⟨msg, false, invalidNonceS, true⟩
        | some nonce =>
          match b64decode msg.cipher with
          | none => ⟨msg, false, invalidCiphertextS, true⟩
          | some ciphertext =>
            match c.decrypt nonce ciphertext with
            | none => ⟨msg, false, authFailedS, true⟩
            | some plain => ⟨{ msg with body := bytesStr plain }, true, [], false⟩

/-- Model of the envelope `transport.reject` synthesizes (an `error`
envelope carrying the reason; `freshId` stands for `newMessageID()`). -/
def rejectMessage (name freshId : Str) (ts : Int) (reason : Str) : Message :=
  ⟨freshId, name, reason, MsgType.error, ts, [], []⟩

/-- The join copy emitted for the UI: body and encryption fields cleared
(`session.handleIncoming`). -/
def trimmedJoinCopy (m : Message) : Message :=
  { m with body := [], cipher := [], nonce := [] }

/-- Envelopes `session.handleIncoming` emits to the UI event stream for one
delivered envelope.  `activated` abstracts the result of the
`markActive(source, sender)` membership update; the membership mutations,
peers responses and gossip forwarding are modelled separately and do not
emit. -/
def handleIncomingEmits (msg : Message) (auth activated : Bool) : List Message :=
  match msg.kind with
  | .peers => []
  | _ =>
    let suppress0 := (msg.kind = MsgType.join) && ¬(trimL msg.body).isEmpty
    if msg.kind = MsgType.error then [msg]
    else
      let act := auth && ¬(msg.kind = MsgType.leave ∧ ¬msg.sender.isEmpty) && activated
      if (msg.kind = MsgType.join) && act then [trimmedJoinCopy msg]
      else if suppress0 then []
      else [msg]

/-- What the transport read loop does with one parsed, unseen envelope:
the error replies written back to the source, the envelopes emitted to the
UI event stream (via the reject callback `handleAuthReject` or via
`handleIncoming`), and the envelope delivered upstream, if any. -/
structure PacketOutcome where
  replies : List Message
  emitted : List Message
  delivered : Option (Message × Bool)
  deriving DecidableEq, Repr

/-- Model of the verification/dispatch pipeline of `transport.listen` for
one decoded, unseen envelope: on a verification error with a reason, write
a reject envelope back and hand it to `handleAuthReject` (which emits it);
otherwise deliver to `session.handleIncoming`, whose emissions are
`handleIncomingEmits`. -/
def processPacket (cipherSt : Option AESCipher) (senderName freshId : Str)
    (ts : Int) (msg : Message) (activated : Bool) : PacketOutcome :=
  let vd := verifyAndDecrypt cipherSt msg
  if vd.errFlag then
    if ¬vd.reason.isEmpty then
      let rej := rejectMessage senderName freshId ts vd.reason
      ⟨[rej], if ¬rej.id.isEmpty then [rej] else [], none⟩
    else ⟨[], [], none⟩
  else ⟨[], handleIncomingEmits vd.msg vd.auth activated, some (vd.msg, vd.auth)⟩

/-- A plaintext chat envelope received by an encrypted session. -/
def msgPlainChat : Message := ⟨['x'], ['b'], ['h', 'i'], MsgType.chat, 0, [], []⟩

/-- Capacity of the session's event queue
(`make(chan Message, 128)` in `newSession`). -/
def eventQueueCapacity : Nat := 128

/-- The event queue as the UI sees it: buffered messages oldest-first, plus
the closed flag. -/
structure EventQueue where
  buf : List Message
  closed : Bool
  deriving DecidableEq, Repr

/-- Model of `session.emit` (`internal/chat/status.go` and
`chat/commands.go`): return silently if the session is closed; enqueue when
there is room; otherwise receive (drop) the oldest buffered event and
enqueue the new one.  The function is total — the producer never waits. -/
def emitQ (q : EventQueue) (m : Message) : EventQueue :=
  if q.closed then q
  else if q.buf.length < eventQueueCapacity then { q with buf := q.buf ++ [m] }
  else
    match q.buf with
    | [] => { q with buf := [m] }
    | _ :: rest => { q with buf := rest ++ [m] }

/-- A concrete full, open queue. -/
def fullQueue : EventQueue :=
  ⟨List.replicate eventQueueCapacity ⟨['x'], ['b'], ['m'], MsgType.chat, 0, [], []⟩,
    false⟩

/-- One outcome of the transport read loop's iteration: either the loop
returns, or it continues (having possibly reported a read error via the
system-event sink, and possibly carrying a received datagram onward). -/
inductive StepRes where
  | exit (reported : Bool)
  | cont (reportedErr : Bool) (packet : Option Str)
  deriving DecidableEq, Repr

/-- What one read attempt produced (`transport.listen`):
`deadlineFail` models `SetReadDeadline` failing, `timeout` a read deadline
expiry, `readErr` any other (transient) read error, `readOk` a datagram. -/
inductive ReadEvent where
  | deadlineFail
  | timeout
  | readErr
  | readOk (data : Str)
  deriving DecidableEq, Repr

/-- Model of one iteration of the `transport.listen` read loop
(`internal/chat` sources; `chat/transport.go` is identical): a deadline
failure returns (reporting when still running); a timeout or transient read
error checks the stop signal and otherwise continues, the transient error
being reported via the system-event sink; a datagram is handed onward. -/
def listenStep (stopSet : Bool) : ReadEvent → StepRes
  | .deadlineFail => if stopSet then .exit false else .exit true
  | .timeout => if stopSet then .exit false else .cont false none
  | .readErr => if stopSet then .exit false else .cont true none
  | .readOk d => .cont false (some d)

/-- Whether the read loop processes a whole trace of read events without
returning, the stop signal never set. -/
def listenSurvives : List ReadEvent → Bool
  | [] => true
  | e :: rest =>
    match listenStep false e with
    | .exit _ => false
    | .cont _ _ => listenSurvives rest

/-- A trace with transient errors interleaved among reads and timeouts. -/
def traceW : List ReadEvent :=
  [.readErr, .timeout, .readOk ['p'], .readErr, .readOk ['q']]

theorem dropWhile_head_false {p : Char → Bool} (l : Str)
    (h : ∀ c, l.head? = some c → p c = false) : l.dropWhile p = l := by
  cases l with
  | nil => rfl
  | cons c cs => simp [List.dropWhile, h c rfl]

theorem dropWhile_no_sat {p : Char → Bool} (l : Str)
    (h : ∀ c ∈ l, p c = false) : l.dropWhile p = l := by
  cases l with
  | nil => rfl
  | cons a as => simp [List.dropWhile, h a (by simp)]

theorem head_dropWhile_false {p : Char → Bool} :
    ∀ (l : Str) (c : Char), (l.dropWhile p).head? = some c → p c = false := by
  intro l
  induction l with
  | nil => intro c hc; simp [List.dropWhile] at hc
  | cons a as ih =>
    intro c hc
    by_cases hpa : p a
    · simp only [List.dropWhile, hpa] at hc
      exact ih c hc
    · simp only [List.dropWhile, hpa, Bool.false_eq_true, if_false,
        List.head?_cons, Option.some.injEq] at hc
      subst hc
      simpa using hpa

theorem getLast_dropWhile_false {p : Char → Bool} :
    ∀ (u : Str), u.dropWhile p ≠ [] → (u.dropWhile p).getLast? = u.getLast? := by
  intro u
  induction u with
  | nil => intro h; simp [List.dropWhile] at h
  | cons a as ih =>
    intro h
    by_cases hpa : p a
    · simp only [List.dropWhile, hpa, if_true] at h ⊢
      rw [ih h]
      cases as with
      | nil => simp [List.dropWhile] at h
      | cons b bs => simp [List.getLast?_cons_cons]
    · simp [List.dropWhile, hpa]

/-- Trimming is idempotent. -/
theorem trimL_trimL (s : Str) : trimL (trimL s) = trimL s := by
  unfold trimL
  set u := (s.dropWhile isSpc).reverse with hu
  set t := (u.dropWhile isSpc).reverse with ht
  have hhead : ∀ c, t.head? = some c → isSpc c = false := by
    intro c hc
    rw [ht, List.head?_reverse] at hc
    by_cases hne : u.dropWhile isSpc = []
    · simp [hne] at hc
    · rw [getLast_dropWhile_false u hne, hu, List.getLast?_reverse] at hc
      exact head_dropWhile_false _ _ hc
  have hlast : ∀ c, t.getLast? = some c → isSpc c = false := by
    intro c hc
    rw [ht, List.getLast?_reverse] at hc
    exact head_dropWhile_false _ _ hc
  rw [dropWhile_head_false t hhead]
  rw [dropWhile_head_false t.reverse (by
    intro c hc
    rw [List.head?_reverse] at hc
    exact hlast c hc)]
  simp

/-- Characters of a trimmed string come from the string. -/
theorem mem_of_mem_trimL {s : Str} {c : Char} (h : c ∈ trimL s) : c ∈ s := by
  unfold trimL at h
  rw [List.mem_reverse] at h
  have h2 := (List.dropWhile_sublist (l := (s.dropWhile isSpc).reverse) (p := isSpc)).mem h
  rw [List.mem_reverse] at h2
  exact (List.dropWhile_sublist (l := s) (p := isSpc)).mem h2

/-- A string with no whitespace characters is unchanged by trimming. -/
theorem trimL_no_space (s : Str) (h : ∀ c ∈ s, isSpc c = false) : trimL s = s := by
  unfold trimL
  rw [dropWhile_no_sat s h]
  rw [dropWhile_no_sat s.reverse (fun c hc => h c (List.mem_reverse.mp hc))]
  simp

theorem toDigitsRevFuel_congr :
    ∀ (f1 f2 n : Nat), n ≤ f1 → n ≤ f2 →
      toDigitsRevFuel f1 n = toDigitsRevFuel f2 n := by
  intro f1
  induction f1 with
  | zero =>
    intro f2 n h1 h2
    interval_cases n
    cases f2 <;> simp [toDigitsRevFuel]
  | succ f ih =>
    intro f2 n h1 h2
    cases f2 with
    | zero =>
      interval_cases n
      simp [toDigitsRevFuel]
    | succ g =>
      by_cases h10 : n < 10
      · simp [toDigitsRevFuel, h10]
      · simp only [toDigitsRevFuel, h10, if_false]
        congr 1
        have hd : n / 10 < n := Nat.div_lt_self (by omega) (by omega)
        exact ih g (n / 10) (by omega) (by omega)

/-- The recurrence satisfied by the digit rendering. -/
theorem toDigitsRev_eq (n : Nat) :
    toDigitsRev n =
      if n < 10 then [digChar n] else digChar (n % 10) :: toDigitsRev (n / 10) := by
  unfold toDigitsRev
  cases n with
  | zero => simp [toDigitsRevFuel]
  | succ m =>
    by_cases h10 : m + 1 < 10
    · simp [toDigitsRevFuel, h10]
    · simp only [toDigitsRevFuel, h10, if_false]
      congr 1
      have hd : (m + 1) / 10 < m + 1 := Nat.div_lt_self (by omega) (by omega)
      exact toDigitsRevFuel_congr m ((m + 1) / 10) ((m + 1) / 10) (by omega) (le_refl _)

theorem digChar_toNat {d : Nat} (h : d < 10) : (digChar d).toNat = 48 + d := by
  interval_cases d <;> decide

theorem isDig_digChar {d : Nat} (h : d < 10) : isDig (digChar d) = true := by
  simp [isDig, digChar_toNat h]
  omega

theorem digVal_digChar {d : Nat} (h : d < 10) : digVal (digChar d) = d := by
  simp [digVal, digChar_toNat h]

theorem toDigitsRev_ne_nil (n : Nat) : toDigitsRev n ≠ [] := by
  rw [toDigitsRev_eq]
  split <;> simp

theorem natToStr_ne_nil (n : Nat) : natToStr n ≠ [] := by
  unfold natToStr
  simp [toDigitsRev_ne_nil n]

theorem mem_toDigitsRev {n : Nat} {c : Char} (h : c ∈ toDigitsRev n) :
    ∃ d, d < 10 ∧ c = digChar d := by
  induction n using Nat.strong_induction_on with
  | _ n ih =>
    rw [toDigitsRev_eq] at h
    split at h
    · next h10 =>
      simp at h
      exact ⟨n, h10, h⟩
    · next h10 =>
      simp at h
      rcases h with h | h
      · exact ⟨n % 10, Nat.mod_lt _ (by omega), h⟩
      · exact ih (n / 10) (Nat.div_lt_self (by omega) (by omega)) h

theorem mem_natToStr_isDig {n : Nat} {c : Char} (h : c ∈ natToStr n) :
    isDig c = true := by
  rw [natToStr, List.mem_reverse] at h
  obtain ⟨d, hd, rfl⟩ := mem_toDigitsRev h
  exact isDig_digChar hd

/-- Fold evaluation of a digit string with one more digit appended. -/
theorem digitsVal_append_digit (s : Str) (c : Char) :
    digitsVal (s ++ [c]) = digitsVal s * 10 + digVal c := by
  simp [digitsVal, List.foldl_append]

/-- Round trip: reading back the decimal rendering recovers the number. -/
theorem digitsVal_natToStr (n : Nat) : digitsVal (natToStr n) = n := by
  induction n using Nat.strong_induction_on with
  | _ n ih =>
    unfold natToStr
    rw [toDigitsRev_eq]
    split
    · next h10 =>
      simp [digitsVal, digVal_digChar h10]
    · next h10 =>
      rw [List.reverse_cons, digitsVal_append_digit]
      have := ih (n / 10) (Nat.div_lt_self (by omega) (by omega))
      rw [natToStr] at this
      rw [this, digVal_digChar (Nat.mod_lt _ (by omega))]
      omega

theorem getLast_toDigitsRev_ne_zero {n : Nat} (hn : 1 ≤ n) {c : Char}
    (h : (toDigitsRev n).getLast? = some c) : c ≠ '0' := by
  induction n using Nat.strong_induction_on with
  | _ n ih =>
    rw [toDigitsRev_eq] at h
    split at h
    · next h10 =>
      simp at h
      subst h
      intro hc
      have h48 := digChar_toNat h10
      rw [hc] at h48
      have h0 : ('0' : Char).toNat = 48 := by decide
      omega
    · next h10 =>
      have hne := toDigitsRev_ne_nil (n / 10)
      cases hrec : toDigitsRev (n / 10) with
      | nil => exact absurd hrec hne
      | cons b bs =>
        rw [hrec, List.getLast?_cons_cons] at h
        rw [← hrec] at h
        exact ih (n / 10) (Nat.div_lt_self (by omega) (by omega))
          (Nat.one_le_div_iff (by omega) |>.mpr (by omega)) h

/-- The leading character of a decimal rendering. -/
theorem head_natToStr (n : Nat) :
    (natToStr n).head? = (toDigitsRev n).getLast? := by
  rw [natToStr, List.head?_reverse]

theorem spanDigits_all_digits (xs : Str) (hxs : ∀ c ∈ xs, isDig c = true) :
    spanDigits xs = (xs, []) := by
  induction xs with
  | nil => rfl
  | cons a as ih =>
    have ha : isDig a = true := hxs a (by simp)
    have ih2 := ih (fun c hc => hxs c (by simp [hc]))
    simp only [spanDigits, ha, if_true, ih2]

theorem spanDigits_append (xs : Str) (y : Char) (rest : Str)
    (hxs : ∀ c ∈ xs, isDig c = true) (hy : isDig y = false) :
    spanDigits (xs ++ y :: rest) = (xs, y :: rest) := by
  induction xs with
  | nil => simp [spanDigits, hy]
  | cons a as ih =>
    have ha : isDig a = true := hxs a (by simp)
    have ih2 := ih (fun c hc => hxs c (by simp [hc]))
    simp only [List.cons_append, spanDigits, ha, if_true, List.append_eq, ih2]

theorem noLeadZero_natToStr (n : Nat) : noLeadZero (natToStr n) = true := by
  by_cases h10 : n < 10
  · unfold natToStr
    rw [toDigitsRev_eq]
    simp [h10, noLeadZero]
  · cases hh : (natToStr n).head? with
    | none =>
      cases hns : natToStr n with
      | nil => exact absurd hns (natToStr_ne_nil n)
      | cons a as => rw [hns] at hh; simp at hh
    | some c =>
      have hc : c ≠ '0' := by
        rw [head_natToStr] at hh
        exact getLast_toDigitsRev_ne_zero (by omega) hh
      cases hns : natToStr n with
      | nil => exact absurd hns (natToStr_ne_nil n)
      | cons a as =>
        rw [hns] at hh
        simp at hh
        subst hh
        simp [noLeadZero, hc]

theorem decFieldOK_natToStr {n max : Nat} (h : n ≤ max) :
    decFieldOK (natToStr n) max = true := by
  unfold decFieldOK
  have h1 : (natToStr n).isEmpty = false := by
    cases hns : natToStr n with
    | nil => exact absurd hns (natToStr_ne_nil n)
    | cons a as => rfl
  have h2 : (natToStr n).all isDig = true :=
    List.all_eq_true.mpr (fun c hc => mem_natToStr_isDig hc)
  simp [h1, h2, noLeadZero_natToStr n, digitsVal_natToStr n, h]

theorem readOctet_natToStr {n : Nat} (hn : n ≤ 255) (y : Char) (rest : Str)
    (hy : isDig y = false) :
    readOctet (natToStr n ++ y :: rest) = some (n, y :: rest) := by
  unfold readOctet
  rw [spanDigits_append (natToStr n) y rest (fun c hc => mem_natToStr_isDig hc) hy]
  simp [decFieldOK_natToStr hn, digitsVal_natToStr]

theorem isDig_dot : isDig '.' = false := by decide

theorem isDig_colon : isDig ':' = false := by decide

theorem expectChar_cons_self (c : Char) (r : Str) : expectChar c (c :: r) = some r := by
  simp [expectChar]

/-- Round trip: parsing the canonical rendering recovers the address-port. -/
theorem parseAddrPortL_renderAP {ap : AddrPort} (h : APOK ap) :
    parseAddrPortL (renderAP ap) = some ap := by
  obtain ⟨ha, hb, hc, hd, hp⟩ := h
  unfold parseAddrPortL renderAP renderIp
  simp only [List.append_assoc, List.cons_append]
  rw [readOctet_natToStr ha '.' _ isDig_dot]
  simp only [Option.bind_eq_bind, Option.some_bind]
  rw [expectChar_cons_self]
  simp only [Option.some_bind]
  rw [readOctet_natToStr hb '.' _ isDig_dot]
  simp only [Option.some_bind]
  rw [expectChar_cons_self]
  simp only [Option.some_bind]
  rw [readOctet_natToStr hc '.' _ isDig_dot]
  simp only [Option.some_bind]
  rw [expectChar_cons_self]
  simp only [Option.some_bind]
  rw [readOctet_natToStr hd ':' _ isDig_colon]
  simp only [Option.some_bind]
  rw [expectChar_cons_self]
  simp only [Option.some_bind]
  unfold readPortAll
  rw [decFieldOK_natToStr hp]
  simp [digitsVal_natToStr]

theorem readOctet_le {s : Str} {n : Nat} {r : Str} (h : readOctet s = some (n, r)) :
    n ≤ 255 := by
  unfold readOctet at h
  split at h
  · next hok =>
    simp only [Option.some.injEq, Prod.mk.injEq] at h
    obtain ⟨h1, _⟩ := h
    unfold decFieldOK at hok
    simp only [Bool.and_eq_true, decide_eq_true_eq] at hok
    omega
  · simp at h

theorem readPortAll_le {s : Str} {n : Nat} (h : readPortAll s = some n) :
    n ≤ 65535 := by
  unfold readPortAll at h
  split at h
  · next hok =>
    simp only [Option.some.injEq] at h
    unfold decFieldOK at hok
    simp only [Bool.and_eq_true, decide_eq_true_eq] at hok
    omega
  · simp at h

/-- The parser only produces in-range address-ports. -/
theorem parseAddrPortL_APOK {s : Str} {ap : AddrPort}
    (h : parseAddrPortL s = some ap) : APOK ap := by
  unfold parseAddrPortL at h
  simp only [Option.bind_eq_bind, Option.bind_eq_some, Option.pure_def,
    Option.some.injEq] at h
  obtain ⟨⟨a, r1⟩, h1, r1b, h2, ⟨b, r2⟩, h3, r2b, h4, ⟨c0, r3⟩, h5, r3b, h6,
    ⟨d0, r4⟩, h7, r4b, h8, p, h9, h10⟩ := h
  subst h10
  exact ⟨readOctet_le h1, readOctet_le h3, readOctet_le h5, readOctet_le h7,
    readPortAll_le h9⟩

theorem isSpc_of_isDig {c : Char} (h : isDig c = true) : isSpc c = false := by
  unfold isDig at h
  unfold isSpc
  simp only [Bool.and_eq_true, decide_eq_true_eq] at h
  simp only [Bool.or_eq_false_iff, decide_eq_false_iff_not]
  omega

theorem renderAP_no_space (ap : AddrPort) : ∀ c ∈ renderAP ap, isSpc c = false := by
  intro c hcm
  unfold renderAP renderIp at hcm
  simp only [List.append_assoc, List.cons_append, List.mem_append,
    List.mem_cons] at hcm
  rcases hcm with h | h | h | h | h | h | h | h | h
  all_goals first
    | exact isSpc_of_isDig (mem_natToStr_isDig h)
    | (subst h; decide)

theorem renderAP_ne_nil (ap : AddrPort) : renderAP ap ≠ [] := by
  unfold renderAP renderIp
  simp

theorem trimL_renderAP (ap : AddrPort) : trimL (renderAP ap) = renderAP ap :=
  trimL_no_space _ (renderAP_no_space ap)

theorem substituteUnspec_self {ap : AddrPort} {fb : Str}
    (h : parseAddrPortL fb = some ap) : substituteUnspec ap fb = ap := by
  unfold substituteUnspec
  by_cases hu : ap.ip.isUnspecified
  · simp [h, hu]
  · simp [hu]

theorem trimL_nil : trimL [] = [] := rfl

theorem normalizeTail_nil_nil : normalizeTail [] [] = ([], false) := rfl

/-- Evaluation of `normalizeAddrL` when the (trimmed) input parses. -/
theorem normalizeAddrL_self_parsed {s : Str} {ap : AddrPort}
    (h : parseAddrPortL (trimL s) = some ap) :
    normalizeAddrL s s = (renderAP ap, true) := by
  have hne : (trimL s).isEmpty = false := by
    cases ht : trimL s with
    | nil => rw [ht] at h; simp [parseAddrPortL, readOctet, spanDigits, decFieldOK] at h
    | cons a as => rfl
  unfold normalizeAddrL
  rw [hne]
  simp only [Bool.false_eq_true, if_false, h, substituteUnspec_self h]

/-- Evaluation of `normalizeAddrL` when the (trimmed) input does not parse. -/
theorem normalizeAddrL_self_unparsed {s : Str}
    (h : parseAddrPortL (trimL s) = none) :
    normalizeAddrL s s = (trimL s, false) := by
  by_cases he : (trimL s).isEmpty
  · have ht : trimL s = [] := by
      cases htl : trimL s with
      | nil => rfl
      | cons a as => rw [htl] at he; simp at he
    unfold normalizeAddrL
    rw [ht]
    simp [normalizeTail_nil_nil]
  · have hne : (trimL s).isEmpty = false := by
      cases htl : trimL s with
      | nil => rw [htl] at he; simp at he
      | cons a as => rfl
    unfold normalizeAddrL
    rw [hne]
    simp only [Bool.false_eq_true, if_false, h]
    unfold normalizeTail
    rw [hne, h]
    simp

/-- C6 core: normalization is idempotent. -/
theorem normalizeL_idem (s : Str) : normalizeL (normalizeL s) = normalizeL s := by
  unfold normalizeL
  cases hp : parseAddrPortL (trimL s) with
  | some ap =>
    rw [normalizeAddrL_self_parsed hp]
    have hrt : parseAddrPortL (trimL (renderAP ap)) = some ap := by
      rw [trimL_renderAP]
      exact parseAddrPortL_renderAP (parseAddrPortL_APOK hp)
    rw [normalizeAddrL_self_parsed hrt]
  | none =>
    rw [normalizeAddrL_self_unparsed hp]
    have hp2 : parseAddrPortL (trimL (trimL s)) = none := by
      rw [trimL_trimL]; exact hp
    rw [normalizeAddrL_self_unparsed hp2, trimL_trimL]

theorem isEmpty_false_of_ne_nil {l : Str} (h : l ≠ []) : l.isEmpty = false := by
  cases l with
  | nil => exact absurd rfl h
  | cons a as => rfl

theorem parseAddrPortL_nil : parseAddrPortL [] = none := rfl

theorem parseAddrPortL_ne_nil {s : Str} {ap : AddrPort}
    (h : parseAddrPortL s = some ap) : s ≠ [] := by
  intro hs
  rw [hs, parseAddrPortL_nil] at h
  exact Option.noConfusion h

/-- The address the code computes is exactly the one-argument normalization. -/
theorem addrForLocal_eq (raw : Str) : addrForLocal raw = normalizeL raw := by
  unfold addrForLocal normalizeL
  cases hp : parseAddrPortL (trimL raw) with
  | some ap => rw [normalizeAddrL_self_parsed hp]
  | none => rw [normalizeAddrL_self_unparsed hp]

theorem isLocalCoreA_eq_specA {loc : LocState} (h : LocWF loc) (addr : Str) :
    isLocalCoreA loc addr = isLocalSpecA loc addr := by
  obtain ⟨lap, hparse, hip, hport, hp0⟩ := h
  have hlocne : loc.localAddr ≠ [] := parseAddrPortL_ne_nil hparse
  unfold isLocalCoreA isLocalSpecA
  by_cases haddr : addr = loc.localAddr
  · have hane : addr ≠ [] := haddr ▸ hlocne
    simp [isEmpty_false_of_ne_nil hane, isEmpty_false_of_ne_nil hlocne, haddr]
  · by_cases hA : addr = []
    · subst hA
      simp only [List.isEmpty_nil, Bool.true_or, if_true, parseAddrPortL_nil]
      simp [Ne.symm hlocne]
    · simp only [isEmpty_false_of_ne_nil hA, isEmpty_false_of_ne_nil hlocne,
        Bool.or_self, Bool.false_eq_true, if_false, haddr]
      cases hpa : parseAddrPortL addr with
      | none => simp [haddr]
      | some ap =>
        rw [hip, hport]
        dsimp only
        by_cases hpt : ap.port = lap.port
        · have hcond : (decide (lap.port ≠ 0) && decide (ap.port ≠ lap.port)) = false := by
            simp [hpt]
          rw [hcond]
          simp only [Bool.false_eq_true, if_false]
          by_cases hu : lap.ip.isUnspecified = true
          · simp [hu, hpt]
          · have hu2 : lap.ip.isUnspecified = false := by simpa using hu
            simp only [hu2, Bool.false_eq_true, if_false]
            by_cases heq : ap.ip = lap.ip
            · simp [heq, hpt]
            · simp only [heq, Bool.false_eq_true, if_false]
              by_cases hlb : (lap.ip.isLoopback && ap.ip.isLoopback) = true
              · simp [hlb, hpt, hu2, Ne.symm heq]
              · have hlb2 : (lap.ip.isLoopback && ap.ip.isLoopback) = false := by
                  simpa using hlb
                simp [hlb2, hpt, hu2, Ne.symm heq]
        · have hcond : (decide (lap.port ≠ 0) && decide (ap.port ≠ lap.port)) = true := by
            simp [hpt, hp0]
          rw [hcond]
          simp [haddr, hpt]

/-- C6: Address normalization is idempotent: for every address string s,
normalize(normalize(s)) = normalize(s). -/
theorem C6_normalize_idempotent (s : Str) :
    normalizeL (normalizeL s) = normalizeL s :=
  normalizeL_idem s

/-- C3: For every address string addr, the locality predicate isLocal(addr)
returns true if and only if, after normalization, addr equals localAddr, or
addr's parsed port equals the local port and (the local IP is unspecified, or
addr's parsed IP equals the local IP, or both IPs are loopback).  Stated for
every well-formed local identity (the state `setLocalAddr` computes from the
bound socket address, whose port is never zero). -/
theorem C3_isLocal_spec_equiv (loc : LocState) (raw : Str) (h : LocWF loc) :
    isLocalCore loc raw = isLocalSpec loc raw := by
  unfold isLocalCore isLocalSpec
  rw [addrForLocal_eq]
  exact isLocalCoreA_eq_specA h _

theorem locStateW_wf : LocWF locStateW :=
  ⟨⟨⟨127, 0, 0, 1⟩, 4000⟩, by decide, rfl, rfl, by decide⟩

theorem C3_isLocal_spec_equiv_witness :
    LocWF locStateW ∧
      isLocalCore locStateW (' ' :: addrPeer14) =
        isLocalSpec locStateW (' ' :: addrPeer14) :=
  ⟨locStateW_wf, C3_isLocal_spec_equiv locStateW (' ' :: addrPeer14) locStateW_wf⟩

theorem tblSet_mem {β : Type} :
    ∀ (t : List (Str × β)) (key : Str) (v : β) (p : Str × β),
      p ∈ tblSet t key v → p.1 = key ∨ p ∈ t := by
  intro t key v
  induction t with
  | nil =>
    intro p hp
    simp [tblSet] at hp
    simp [hp]
  | cons e rest ih =>
    intro p hp
    obtain ⟨k, w⟩ := e
    unfold tblSet at hp
    split at hp
    · next hk =>
      subst hk
      rcases List.mem_cons.mp hp with h | h
      · left; rw [h]
      · right; exact List.mem_cons_of_mem _ h
    · rcases List.mem_cons.mp hp with h | h
      · right; rw [h]; exact List.mem_cons_self _ _
      · rcases ih p h with h2 | h2
        · left; exact h2
        · right; exact List.mem_cons_of_mem _ h2

theorem tblGet_some_mem {β : Type} :
    ∀ (t : List (Str × β)) (key : Str) (v : β),
      tblGet t key = some v → (key, v) ∈ t := by
  intro t key v
  induction t with
  | nil => intro h; simp [tblGet] at h
  | cons e rest ih =>
    intro h
    obtain ⟨k, w⟩ := e
    unfold tblGet at h
    split at h
    · next hk =>
      simp at h
      subst hk
      subst h
      exact List.mem_cons_self _ _
    · exact List.mem_cons_of_mem _ (ih h)

/-- C10: For every known non-local member, markFailed returns true even when
the member's status was already Pending (its boolean reports that the address
was known, not that a status transition occurred); it returns false only for
unknown, local, or non-normalizable addresses. -/
theorem C10_markFailed_reports_known (st : MState) (raw : Str) (now : Nat) :
    (markFailedM st raw now).2 = true ↔
      ∃ a, normalizeAddrL raw raw = (a, true) ∧ st.isLocal a = false ∧
        (tblGet st.members a).isSome := by
  unfold markFailedM
  cases hn : normalizeAddrL raw raw with
  | mk a ok =>
    cases ok with
    | false => simp
    | true =>
      by_cases hloc : st.isLocal a = true
      · simp [hloc]
      · have hloc2 : st.isLocal a = false := by simpa using hloc
        cases hg : tblGet st.members a with
        | none => simp [hloc2, hg]
        | some mem => simp [hloc2, hg]

/-- C7 counterexample: re-invoking markActive on a member already
`(Active, n)` reports no change but does not leave the membership table
unchanged — the member's lastSeen timestamp is refreshed to the call time. -/
theorem C7_counterexample :
    (markActiveM mgrStateC7 addrPeer14 ['b'] 6).2 = false ∧
    (markActiveM mgrStateC7 addrPeer14 ['b'] 6).1 ≠ mgrStateC7 := by decide

/-- C7 (amended): when the member recorded at canonical non-local address `a`
already has status Active and name `n`, markActive(a, n) reports no change
and leaves the membership table unchanged except that the member's lastSeen
is refreshed to the call time. -/
theorem C7_markActive_already_active (st : MState) (a n : Str) (now : Nat)
    (mem : MMember)
    (hnorm : normalizeAddrL a a = (a, true))
    (hloc : st.isLocal a = false)
    (hget : tblGet st.members a = some mem)
    (hstatus : mem.status = MStatus.active)
    (hname : mem.name = n) :
    (markActiveM st a n now).2 = false ∧
    (markActiveM st a n now).1.members =
      tblSet st.members a ({ mem with lastSeen := now }) := by
  unfold markActiveM
  rw [hnorm]
  simp only [hloc, Bool.false_eq_true, if_false]
  rw [hget]
  cases mem with
  | mk maddr mname mstatus mlast =>
    simp only [MMember.status] at hstatus
    simp only [MMember.name] at hname
    subst hstatus
    subst hname
    simp

theorem C7_markActive_already_active_witness :
    (normalizeAddrL addrPeer14 addrPeer14 = (addrPeer14, true) ∧
      mgrStateC7.isLocal addrPeer14 = false ∧
      tblGet mgrStateC7.members addrPeer14 = some memPeerActive) ∧
    ((markActiveM mgrStateC7 addrPeer14 ['b'] 6).2 = false ∧
      (markActiveM mgrStateC7 addrPeer14 ['b'] 6).1.members =
        tblSet mgrStateC7.members addrPeer14 ({ memPeerActive with lastSeen := 6 })) :=
  ⟨⟨by decide, by decide, by decide⟩,
    C7_markActive_already_active mgrStateC7 addrPeer14 ['b'] 6 memPeerActive
      (by decide) (by decide) (by decide) (by decide) (by decide)⟩

theorem tblDel_subset {β : Type} :
    ∀ (t : List (Str × β)) (key : Str) (p : Str × β), p ∈ tblDel t key → p ∈ t := by
  intro t key p
  induction t with
  | nil => intro h; simp [tblDel] at h
  | cons e rest ih =>
    intro h
    obtain ⟨k, v⟩ := e
    unfold tblDel at h
    split at h
    · exact List.mem_cons_of_mem _ h
    · rcases List.mem_cons.mp h with h2 | h2
      · rw [h2]; exact List.mem_cons_self _ _
      · exact List.mem_cons_of_mem _ (ih h2)

theorem normalizeL_ne_nil {s : Str} (h : trimL s ≠ []) : normalizeL s ≠ [] := by
  unfold normalizeL
  cases hp : parseAddrPortL (trimL s) with
  | some ap =>
    rw [normalizeAddrL_self_parsed hp]
    exact renderAP_ne_nil ap
  | none =>
    rw [normalizeAddrL_self_unparsed hp]
    exact h

theorem addrForLocal_ne_nil {s : Str} (h : trimL s ≠ []) : addrForLocal s ≠ [] := by
  rw [addrForLocal_eq]
  exact normalizeL_ne_nil h

theorem normalizeTail_true_render {a b r : Str}
    (h : normalizeTail a b = (r, true)) : ∃ ap, r = renderAP ap := by
  unfold normalizeTail at h
  split at h
  · split at h
    · next fp _ =>
      split at h
      · split at h
        · next host _ =>
          exact ⟨_, (Prod.mk.injEq .. ▸ h).1.symm⟩
        · exact ⟨_, (Prod.mk.injEq .. ▸ h).1.symm⟩
      · exact ⟨_, (Prod.mk.injEq .. ▸ h).1.symm⟩
    · split at h
      · exact absurd (Prod.mk.injEq .. ▸ h).2 (by simp)
      · exact absurd (Prod.mk.injEq .. ▸ h).2 (by simp)
  · split at h
    · exact absurd (Prod.mk.injEq .. ▸ h).2 (by simp)
    · exact absurd (Prod.mk.injEq .. ▸ h).2 (by simp)

theorem normalizeAddrL_true_render {a b r : Str}
    (h : normalizeAddrL a b = (r, true)) : ∃ ap, r = renderAP ap := by
  unfold normalizeAddrL at h
  split at h
  · exact normalizeTail_true_render h
  · split at h
    · next ap _ =>
      exact ⟨_, (Prod.mk.injEq .. ▸ h).1.symm⟩
    · exact normalizeTail_true_render h

theorem normalizeAddrL_true_props {a b r : Str}
    (h : normalizeAddrL a b = (r, true)) : trimL r = r ∧ r ≠ [] := by
  obtain ⟨ap, rfl⟩ := normalizeAddrL_true_render h
  exact ⟨trimL_renderAP ap, renderAP_ne_nil ap⟩

theorem keys_tblSet {β : Type} {t : List (Str × β)} {k : Str} {v : β}
    (ht : ∀ p ∈ t, p.1 ≠ []) (hk : k ≠ []) :
    ∀ p ∈ tblSet t k v, p.1 ≠ [] := by
  intro p hp
  rcases tblSet_mem t k v p hp with h | h
  · rw [h]; exact hk
  · exact ht p h

theorem ne_nil_of_trim_ne {l : Str} (h : (trimL l).isEmpty = false) : trimL l ≠ [] := by
  intro hl
  rw [hl] at h
  simp at h

theorem KNE_addPending {st : SState} {raw : Str} {now : Nat}
    (h : KeysNonEmpty st) (hr : trimL raw ≠ []) :
    KeysNonEmpty (addPendingMemberS st raw now).1 := by
  unfold addPendingMemberS
  dsimp only
  split
  · exact h
  · cases hg : tblGet st.members (addrForLocal raw) with
    | none =>
      dsimp only
      intro p hp
      exact keys_tblSet h (addrForLocal_ne_nil hr) p hp
    | some rec0 =>
      dsimp only
      split
      · intro p hp
        exact keys_tblSet h (addrForLocal_ne_nil hr) p hp
      · exact h

theorem KNE_markActive {st : SState} {raw name : Str} {now : Nat}
    (h : KeysNonEmpty st) (hr : trimL raw ≠ []) :
    KeysNonEmpty (markMemberActiveS st raw name now).1 := by
  unfold markMemberActiveS
  dsimp only
  split
  · exact h
  · intro p hp
    exact keys_tblSet h (addrForLocal_ne_nil hr) p hp

theorem KNE_markFailed {st : SState} {raw : Str} {now : Nat}
    (h : KeysNonEmpty st) :
    KeysNonEmpty (markMemberFailedS st raw now).1 := by
  unfold markMemberFailedS
  dsimp only
  split
  · exact h
  · cases hg : tblGet st.members (addrForLocal raw) with
    | none => exact h
    | some rec0 =>
      dsimp only
      intro p hp
      have hkey : addrForLocal raw ≠ [] :=
        h _ (tblGet_some_mem _ _ _ hg)
      exact keys_tblSet h hkey p hp

theorem KNE_remove {st : SState} {raw : Str}
    (h : KeysNonEmpty st) :
    KeysNonEmpty (removeMemberS st raw).1 := by
  unfold removeMemberS
  dsimp only
  split
  · exact h
  · cases hg : tblGet st.members (addrForLocal raw) with
    | none => exact h
    | some rec0 =>
      dsimp only
      intro p hp
      exact h p (tblDel_subset _ _ p hp)

theorem KNE_setLocalAddrLocked {st : SState} {addr : Str} {now : Nat}
    (h : KeysNonEmpty st) :
    KeysNonEmpty (setLocalAddrLocked st addr now) := by
  unfold setLocalAddrLocked
  dsimp only
  split
  · exact h
  · next hne =>
    intro p hp
    refine keys_tblSet h ?_ p hp
    intro hc
    rw [hc] at hne
    simp at hne

theorem KNE_reset {st : SState} {localAddr : Str} {now : Nat}
    (_h : KeysNonEmpty st) :
    KeysNonEmpty (resetMembershipS st localAddr now) := by
  unfold resetMembershipS
  apply KNE_setLocalAddrLocked
  intro p hp
  simp at hp

theorem KNE_collectGo {infos : List MemberInfo} :
    ∀ {st : SState} {remote rcanon : Str} {rok : Bool} {now : Nat},
      KeysNonEmpty st →
      KeysNonEmpty (collectUnknownGo st infos remote rcanon rok now).1 := by
  induction infos with
  | nil => intro st remote rcanon rok now h; exact h
  | cons info rest ih =>
    intro st remote rcanon rok now h
    unfold collectUnknownGo
    cases hn : normalizeAddrL info.addr remote with
    | mk addr ok =>
      cases ok with
      | false => exact ih h
      | true =>
        obtain ⟨htrim, hne⟩ := normalizeAddrL_true_props hn
        have htr : trimL addr ≠ [] := by rw [htrim]; exact hne
        dsimp only
        split
        · exact ih h
        · have h1 : KeysNonEmpty (markMemberActiveS st addr info.name now).1 :=
            KNE_markActive h htr
          split
          · exact ih h1
          · split
            · have h3 : KeysNonEmpty
                  (addPendingMemberS (markMemberActiveS st addr info.name now).1 addr now).1 :=
                KNE_addPending h1 htr
              split
              · exact ih h3
              · exact ih h3
            · exact ih h1

theorem KNE_collect {st : SState} {infos : List MemberInfo} {remote : Str} {now : Nat}
    (h : KeysNonEmpty st) :
    KeysNonEmpty (collectUnknownS st infos remote now).1 := by
  unfold collectUnknownS
  cases normalizeAddrL remote remote with
  | mk rc rok => exact KNE_collectGo h

theorem ne_nil_of_not_isEmpty {l : Str} (h : ¬l.isEmpty = true) : l ≠ [] := by
  intro h0
  rw [h0] at h
  exact h rfl

theorem trimL_joinAddr_ne {m r : Str} (h : joinAddr m r ≠ []) :
    trimL (joinAddr m r) ≠ [] := by
  unfold joinAddr at h ⊢
  cases hn : normalizeAddrL m r with
  | mk a ok =>
    rw [hn] at h
    cases ok with
    | true =>
      obtain ⟨htrim, hne⟩ := normalizeAddrL_true_props hn
      dsimp only
      rw [htrim]
      exact hne
    | false =>
      dsimp only at h ⊢
      rw [trimL_trimL]
      exact h

theorem KNE_processJoin {st : SState} {payload : Option JoinPayload}
    {remoteAddr remoteName : Str} {now : Nat}
    (h : KeysNonEmpty st) :
    KeysNonEmpty (processJoinPayloadS st payload remoteAddr remoteName now).1 := by
  unfold processJoinPayloadS
  cases payload with
  | none => exact h
  | some pl =>
    dsimp only
    split
    · next hcond =>
      simp only [Bool.and_eq_true, decide_eq_true_eq] at hcond
      have hne : joinAddr pl.member.addr remoteAddr ≠ [] :=
        ne_nil_of_not_isEmpty hcond.1
      exact KNE_collect (KNE_markActive h (trimL_joinAddr_ne hne))
    · exact KNE_collect h

theorem KNE_processPeers {st : SState} {payload : Option (List MemberInfo)}
    {remoteAddr : Str} {now : Nat}
    (h : KeysNonEmpty st) :
    KeysNonEmpty (processPeersPayloadS st payload remoteAddr now).1 := by
  unfold processPeersPayloadS
  cases payload with
  | none => exact h
  | some peers => exact KNE_collect h

theorem KNE_applyOp {st : SState} {op : MemOp}
    (h : KeysNonEmpty st) (hop : opTrimOK op = true) :
    KeysNonEmpty (applyOp st op) := by
  cases op with
  | addPending raw now =>
    simp only [opTrimOK, decide_eq_true_eq] at hop
    exact KNE_addPending h (ne_nil_of_not_isEmpty hop)
  | markActive raw name now =>
    simp only [opTrimOK, decide_eq_true_eq] at hop
    exact KNE_markActive h (ne_nil_of_not_isEmpty hop)
  | markFailed raw now => exact KNE_markFailed h
  | removeMem raw => exact KNE_remove h
  | processJoin p ra rn now => exact KNE_processJoin h
  | processPeers p ra now => exact KNE_processPeers h
  | resetTable la now => exact KNE_reset h

theorem KNE_foldl :
    ∀ (ops : List MemOp) (st : SState), KeysNonEmpty st →
      (∀ op ∈ ops, opTrimOK op = true) →
      KeysNonEmpty (ops.foldl applyOp st) := by
  intro ops
  induction ops with
  | nil => intro st h _; exact h
  | cons op rest ih =>
    intro st h hops
    simp only [List.foldl_cons]
    exact ih _ (KNE_applyOp h (hops op (by simp)))
      (fun o ho => hops o (by simp [ho]))

/-- C4 counterexample: after resetting the table for `127.0.0.1:4000` and
calling addPending on the whitespace string `" "`, the session membership
table holds an entry whose key is the empty canonical address. -/
theorem C4_counterexample :
    ¬ KeysNonEmpty (c4Ops.foldl applyOp (sessionInit ['m'] addrLocal14 0)) := by
  decide

/-- C4 (amended): after any sequence of membership operations (addPending,
markActive, markFailed, remove, processJoin, processPeers, reset of the
table) in which every direct addPending/markActive argument is non-empty
after whitespace trimming — which every caller in the sources guarantees —
no entry in the membership table has an empty canonical address as its key.
(The Manager variant enforces this unconditionally; the session variant
falls back to the trimmed string when normalization fails, so a
whitespace-only argument inserts an empty key.) -/
theorem C4_no_empty_key (cfgName initAddr : Str) (now0 : Nat) (ops : List MemOp)
    (h : ∀ op ∈ ops, opTrimOK op = true) :
    KeysNonEmpty (ops.foldl applyOp (sessionInit cfgName initAddr now0)) := by
  apply KNE_foldl ops _ _ h
  apply KNE_reset
  intro p hp
  simp [SState.members] at hp

theorem C4_no_empty_key_witness :
    (∀ op ∈ c4OpsW, opTrimOK op = true) ∧
    KeysNonEmpty (c4OpsW.foldl applyOp (sessionInit ['m'] addrLocal14 0)) :=
  ⟨by decide, C4_no_empty_key ['m'] addrLocal14 0 c4OpsW (by decide)⟩

theorem b64encode_ne_nil {bs : List Nat} (h : bs ≠ []) : b64encode bs ≠ [] := by
  match bs with
  | [] => exact absurd rfl h
  | [a] => simp [b64encode]
  | [a, b] => simp [b64encode]
  | a :: b :: c :: rest => simp [b64encode]

/-- C5: For every plaintext and a cipher constructed from a non-empty
secret, composing the cipher's encrypt and decrypt operations is the
identity: decrypting the (nonce, ciphertext) pair produced by encrypting a
plaintext returns that plaintext (given the AEAD contract of the underlying
AES-GCM instance). -/
theorem C5_encrypt_decrypt_id (secret : Str) (g : GCM) (hs : secret ≠ [])
    (hg : GCMSound g) (plain nonce : List Nat) :
    ∃ c, newAESCipherM secret g = some c ∧
      c.decrypt (c.encrypt nonce plain).1 (c.encrypt nonce plain).2 = some plain := by
  refine ⟨⟨g⟩, ?_, ?_⟩
  · simp [newAESCipherM, isEmpty_false_of_ne_nil hs]
  · simpa [AESCipher.encrypt, AESCipher.decrypt] using hg nonce plain

theorem gcmId_sound : GCMSound gcmId := fun _ _ => rfl

theorem C5_encrypt_decrypt_id_witness :
    (['k'] : Str) ≠ [] ∧
    ∃ c, newAESCipherM ['k'] gcmId = some c ∧
      c.decrypt (c.encrypt [0] [1, 2]).1 (c.encrypt [0] [1, 2]).2 = some [1, 2] :=
  ⟨by decide, C5_encrypt_decrypt_id ['k'] gcmId (by decide) gcmId_sound [1, 2] [0]⟩

/-- C2 counterexample: the `leave` envelope `session.shutdown` broadcasts has
an empty body in a plaintext session, so the produced envelope has body,
cipher and nonce all empty — neither disjunct of the invariant holds. -/
theorem C2_counterexample :
    ¬envelopeXor (prepare none ['n'] MsgType.leave [] ['i', 'd'] 0 []) := by
  decide

/-- C2 (amended): every envelope produced for transmission from a non-empty
plaintext body satisfies the invariant — the body is set with cipher and
nonce empty in a plaintext session, or the body is empty with cipher and
nonce set in an encrypted session (AES-GCM nonces are non-empty and sealing
appends a 16-byte tag, so the encoded fields are non-empty).  An envelope
prepared from an empty body in a plaintext session has all three fields
empty. -/
theorem C2_prepare_xor (cipherSt : Option AESCipher) (name : Str)
    (kind : MsgType) (body : Str) (freshId : Str) (ts : Int) (nonce : List Nat)
    (hbody : body ≠ [])
    (hcip : ∀ c, cipherSt = some c →
      nonce ≠ [] ∧ ∀ n p, c.gcm.sealFn n p ≠ []) :
    envelopeXor (prepare cipherSt name kind body freshId ts nonce) := by
  cases cipherSt with
  | none => exact Or.inl ⟨hbody, rfl, rfl⟩
  | some c =>
    obtain ⟨hn, hs⟩ := hcip c rfl
    exact Or.inr ⟨rfl, b64encode_ne_nil (hs _ _), b64encode_ne_nil hn⟩

theorem C2_prepare_xor_witness :
    (['h'] : Str) ≠ [] ∧
    envelopeXor (prepare (some ⟨gcmTag⟩) ['n'] MsgType.chat ['h'] ['i'] 0 [1]) :=
  ⟨by decide,
    C2_prepare_xor (some ⟨gcmTag⟩) ['n'] MsgType.chat ['h'] ['i'] 0 [1]
      (by decide)
      (fun c hc => by
        cases hc
        exact ⟨by decide, fun n p => by simp [gcmTag]⟩)⟩

/-- C1 counterexample: in an encrypted session, a received envelope of kind
`error` with an empty `cipher` field bypasses the encryption check — no
error reply is written and the envelope is emitted to the UI stream. -/
theorem C1_counterexample :
    (processPacket (some ⟨gcmId⟩) ['n'] ['f'] 0
        ⟨['x'], ['b'], ['r'], MsgType.error, 0, [], []⟩ false).replies = [] ∧
    (⟨['x'], ['b'], ['r'], MsgType.error, 0, [], []⟩ : Message) ∈
      (processPacket (some ⟨gcmId⟩) ['n'] ['f'] 0
        ⟨['x'], ['b'], ['r'], MsgType.error, 0, [], []⟩ false).emitted := by
  decide

theorem verifyAndDecrypt_mismatch {cipherSt : Option AESCipher} {msg : Message}
    (hkind : msg.kind ≠ MsgType.error)
    (hmis : (cipherSt.isSome ∧ msg.cipher = []) ∨
      (cipherSt = none ∧ msg.cipher ≠ [])) :
    verifyAndDecrypt cipherSt msg = ⟨msg, false, encryptionRequiredS, true⟩ := by
  unfold verifyAndDecrypt
  rw [if_neg hkind]
  rcases hmis with ⟨hsome, hemp⟩ | ⟨hnone, hne⟩
  · cases cipherSt with
    | none => simp at hsome
    | some c =>
      dsimp only
      rw [if_pos]
      simp [hemp]
  · cases cipherSt with
    | none =>
      dsimp only
      rw [if_pos]
      simp [isEmpty_false_of_ne_nil hne]
    | some c => simp at hnone

/-- C1 (amended): in a session with a cipher configured, any received
envelope of kind other than `error` with an empty cipher field yields an
`error` reply carrying "encryption required" to the source, is never itself
emitted to the UI event stream, and is not delivered upstream; symmetrically
for a session with no cipher receiving a non-empty cipher field.  (Envelopes
of kind `error` bypass the encryption checks and are delivered.) -/
theorem C1_mismatch_rejected (cipherSt : Option AESCipher)
    (senderName freshId : Str) (ts : Int) (msg : Message) (activated : Bool)
    (hkind : msg.kind ≠ MsgType.error)
    (hmis : (cipherSt.isSome ∧ msg.cipher = []) ∨
      (cipherSt = none ∧ msg.cipher ≠ [])) :
    (∃ r ∈ (processPacket cipherSt senderName freshId ts msg activated).replies,
        r.kind = MsgType.error ∧ r.body = encryptionRequiredS) ∧
    msg ∉ (processPacket cipherSt senderName freshId ts msg activated).emitted ∧
    (processPacket cipherSt senderName freshId ts msg activated).delivered = none := by
  have hvd := verifyAndDecrypt_mismatch hkind hmis
  have hreason : (encryptionRequiredS.isEmpty : Bool) = false := by decide
  have hout : processPacket cipherSt senderName freshId ts msg activated =
      ⟨[rejectMessage senderName freshId ts encryptionRequiredS],
        if ¬freshId.isEmpty then
          [rejectMessage senderName freshId ts encryptionRequiredS]
        else [],
        none⟩ := by
    simp [processPacket, hvd, hreason, rejectMessage]
  rw [hout]
  refine ⟨⟨rejectMessage senderName freshId ts encryptionRequiredS, by simp, rfl, rfl⟩,
    ?_, rfl⟩
  have hne : msg ≠ rejectMessage senderName freshId ts encryptionRequiredS := by
    intro he
    apply hkind
    rw [he]
    rfl
  split
  · simp [hne]
  · simp

theorem C1_mismatch_rejected_witness :
    msgPlainChat.kind ≠ MsgType.error ∧
    ((∃ r ∈ (processPacket (some ⟨gcmId⟩) ['n'] ['f'] 0 msgPlainChat false).replies,
        r.kind = MsgType.error ∧ r.body = encryptionRequiredS) ∧
      msgPlainChat ∉
        (processPacket (some ⟨gcmId⟩) ['n'] ['f'] 0 msgPlainChat false).emitted ∧
      (processPacket (some ⟨gcmId⟩) ['n'] ['f'] 0 msgPlainChat false).delivered = none) :=
  ⟨by decide,
    C1_mismatch_rejected (some ⟨gcmId⟩) ['n'] ['f'] 0 msgPlainChat false
      (by decide) (Or.inl ⟨rfl, rfl⟩)⟩

/-- C9: The event queue is a bounded channel of capacity 128; for every emit
while the (open) queue is full, the oldest queued event is removed to make
room and the new event is enqueued, and the queue stays at capacity — the
emitting producer never blocks (`emitQ` is a total function). -/
theorem C9_emit_drop_oldest (q : EventQueue) (m : Message)
    (hopen : q.closed = false) (hfull : q.buf.length = eventQueueCapacity) :
    (emitQ q m).buf = q.buf.tail ++ [m] ∧
    (emitQ q m).buf.length = eventQueueCapacity := by
  unfold emitQ
  rw [hopen]
  simp only [Bool.false_eq_true, if_false]
  rw [if_neg (by omega)]
  cases hb : q.buf with
  | nil =>
    rw [hb] at hfull
    simp [eventQueueCapacity] at hfull
  | cons x rest =>
    rw [hb] at hfull
    simp at hfull
    constructor
    · rfl
    · simp
      unfold eventQueueCapacity at hfull ⊢
      omega

theorem C9_emit_drop_oldest_witness :
    (fullQueue.closed = false ∧ fullQueue.buf.length = eventQueueCapacity) ∧
    ((emitQ fullQueue msgPlainChat).buf = fullQueue.buf.tail ++ [msgPlainChat] ∧
      (emitQ fullQueue msgPlainChat).buf.length = eventQueueCapacity) :=
  ⟨⟨rfl, by simp [fullQueue]⟩,
    C9_emit_drop_oldest fullQueue msgPlainChat rfl (by simp [fullQueue])⟩

/-- C8: While the stop signal is unset, the transport read loop never exits
because of a transient (non-timeout) read error: it survives every trace of
reads, timeouts and transient errors (only a `SetReadDeadline` failure makes
it return), and on a transient error it reports via the system-event sink
and continues reading. -/
theorem C8_transient_error_continues (evs : List ReadEvent)
    (h : ∀ e ∈ evs, e ≠ ReadEvent.deadlineFail) :
    listenSurvives evs = true ∧
    listenStep false ReadEvent.readErr = StepRes.cont true none := by
  refine ⟨?_, rfl⟩
  induction evs with
  | nil => rfl
  | cons e rest ih =>
    have he := h e (by simp)
    cases e with
    | deadlineFail => exact absurd rfl he
    | timeout => exact ih (fun e2 h2 => h e2 (by simp [h2]))
    | readErr => exact ih (fun e2 h2 => h e2 (by simp [h2]))
    | readOk d => exact ih (fun e2 h2 => h e2 (by simp [h2]))

theorem C8_transient_error_continues_witness :
    (∀ e ∈ traceW, e ≠ ReadEvent.deadlineFail) ∧
    (listenSurvives traceW = true ∧
      listenStep false ReadEvent.readErr = StepRes.cont true none) :=
  ⟨by decide, C8_transient_error_continues traceW (by decide)⟩
